import Mathlib

/-!
Shallow embedding of the WaypointSmoother program (src/main.cpp), a
centripetal Catmull-Rom path smoother.

Modelling conventions:
* a C++ point (`std::vector<double>` of size 2) is a pair of reals;
* `double` arithmetic is modelled by exact real arithmetic;
* an out-of-range `deque::at` access (which throws in C++) is modelled by
  `Option`, so a computation that would throw returns `none`;
* the accumulating loop variable `t` of the sampling loop is modelled in
  exact rational arithmetic.
-/

namespace SmoothPath

/-- A 2-D point: the C++ code represents a point as a vector `[x, y]`. -/
abbrev Point : Type := ℝ × ℝ

/-- Coefficients of one cubic spline segment (`struct Segment`, main.cpp:31-34). -/
structure Segment where
  a : Point
  b : Point
  c : Point
  d : Point

/-- the magnitude of a vector (`getMagnitude`, main.cpp:37-39):
`sqrt(x^2 + y^2)`. -/
noncomputable def getMagnitude (point : Point) : ℝ :=
  Real.sqrt (point.1 ^ 2 + point.2 ^ 2)

/-- the distance between two points (`distance`, main.cpp:42-44).  The source
builds the difference vector as `{p1.at(0) - p0.at(0), p1.at(1) - p1.at(1)}`;
the y-component subtracts `p1`'s own y from itself.  This is reproduced
faithfully here. -/
noncomputable def distance (p0 p1 : Point) : ℝ :=
  getMagnitude (p1.1 - p0.1, p1.2 - p1.2)

/-- a knot spacing `pow(distance(p, q), alpha)` (main.cpp:50-52), with real
exponentiation modelling `std::pow` on nonnegative bases. -/
noncomputable def knotSpacing (alpha : ℝ) (p q : Point) : ℝ :=
  distance p q ^ alpha

/-- the Catmull-Rom segment coefficient computation
(`calcCoefficients`, main.cpp:47-93), transcribed expression by expression.
Divisions are real divisions (the source performs them unguarded). -/
noncomputable def calcCoefficients (alpha tension : ℝ) (p0 p1 p2 p3 : Point) :
    Segment :=
  let t01 := knotSpacing alpha p0 p1
  let t12 := knotSpacing alpha p1 p2
  let t23 := knotSpacing alpha p2 p3
  let m1x := (1 - tension) *
    (p2.1 - p1.1 + t12 * ((p1.1 - p0.1) / t01 - (p2.1 - p0.1) / (t01 + t12)))
  let m1y := (1 - tension) *
    (p2.2 - p1.2 + t12 * ((p1.2 - p0.2) / t01 - (p2.2 - p0.2) / (t01 + t12)))
  let m2x := (1 - tension) *
    (p2.1 - p1.1 + t12 * ((p3.1 - p2.1) / t23 - (p3.1 - p1.1) / (t12 + t23)))
  let m2y := (1 - tension) *
    (p2.2 - p1.2 + t12 * ((p3.2 - p2.2) / t23 - (p3.2 - p1.2) / (t12 + t23)))
  { a := (2 * (p1.1 - p2.1) + m1x + m2x, 2 * (p1.2 - p2.2) + m1y + m2y)
    b := ((-3) * (p1.1 - p2.1) - m1x - m1x - m2x,
          (-3) * (p1.2 - p2.2) - m1y - m1y - m2y)
    c := (m1x, m1y)
    d := (p1.1, p1.2) }

/-- evaluation of a segment's cubic at parameter `t` (main.cpp:162-164):
`a*t^3 + b*t^2 + c*t + d`, per axis. -/
noncomputable def samplePoint (seg : Segment) (t : ℝ) : Point :=
  (seg.a.1 * t ^ 3 + seg.b.1 * t ^ 2 + seg.c.1 * t + seg.d.1,
   seg.a.2 * t ^ 3 + seg.b.2 * t ^ 2 + seg.c.2 * t + seg.d.2)

/-- the loop header `for (double t = 0.1; t <= 1; t += 0.1)` (main.cpp:159) in
exact arithmetic: the sequence of values taken by `t`.  `fuel` bounds the
number of iterations; 11 is enough, since `t` starts at 1/10 and exceeds 1
after ten increments. -/
def tLoop : ℕ → ℚ → List ℚ
  | 0, _ => []
  | fuel + 1, t => if t ≤ 1 then t :: tLoop fuel (t + 1 / 10) else []

/-- the parameter values sampled for each window (main.cpp:159). -/
def sampleTs : List ℚ := tLoop 11 (1 / 10)

/-- the points appended to the output for one window (main.cpp:159-168): the
loop body evaluates the window's cubic at each value taken by `t` and appends
the result.  The source interleaves the evaluation with the accumulation of
`t`; here the sequence of `t` values is `sampleTs` and the loop body is
mapped over it. -/
noncomputable def windowSamples (seg : Segment) : List Point :=
  sampleTs.map (fun t => samplePoint seg (t : ℝ))

/-- the sliding 4-point windows of the control sequence: the loop
`for (int i = 0; i < path.points.size()-3; i++)` (main.cpp:127-133) reads the
points at indices `i`, `i+1`, `i+2`, `i+3`; equivalently, one window per
suffix that still has at least four points. -/
def windows : List Point → List (Point × Point × Point × Point)
  | p0 :: p1 :: p2 :: p3 :: rest =>
      (p0, p1, p2, p3) :: windows (p1 :: p2 :: p3 :: rest)
  | _ => []

/-- the phantom-control-point injection phase of `generateSmoothPath`
(main.cpp:99-121): read points 0 and 1, push
`first - (second - first)` to the front, then read the last and
second-to-last points of the extended sequence and push
`last + (last - penultimate)` to the back.  The `deque::at` accesses are
modelled by `List.get?` in `Option`. -/
noncomputable def buildControl (path : List Point) : Option (List Point) := do
  let firstPoint ← path.get? 0
  let secondPoint ← path.get? 1
  let startingControl : Point :=
    (firstPoint.1 - (secondPoint.1 - firstPoint.1),
     firstPoint.2 - (secondPoint.2 - firstPoint.2))
  let path1 := startingControl :: path
  let lastPoint ← path1.get? (path1.length - 1)
  let penultPoint ← path1.get? (path1.length - 2)
  let finalControl : Point :=
    (lastPoint.1 + (lastPoint.1 - penultPoint.1),
     lastPoint.2 + (lastPoint.2 - penultPoint.2))
  pure (path1 ++ [finalControl])

/-- the full smoothing pipeline (`generateSmoothPath`, main.cpp:97-175):
inject the phantom control points, compute one `Segment` per sliding 4-point
window with `alpha = 0.75`, `tension = 0`, then emit the first segment's `d`
coefficient (the `z == 0` branch, main.cpp:148-152) followed by the ten
samples of every window. -/
noncomputable def generateSmoothPath (path : List Point) :
    Option (List Point) :=
  (buildControl path).map fun control =>
    let segments := (windows control).map fun w =>
      calcCoefficients 0.75 0 w.1 w.2.1 w.2.2.1 w.2.2.2
    match segments with
    | [] => []
    | s0 :: _ => s0.d :: segments.flatMap windowSamples

/-! Helper lemmas. -/

theorem windows_length : ∀ l : List Point, (windows l).length = l.length - 3
  | [] => rfl
  | [_] => rfl
  | [_, _] => rfl
  | [_, _, _] => rfl
  | p0 :: p1 :: p2 :: p3 :: rest => by
    have ih := windows_length (p1 :: p2 :: p3 :: rest)
    simp only [windows, List.length_cons] at ih ⊢
    omega

theorem sampleTs_eval :
    sampleTs = [1/10, 2/10, 3/10, 4/10, 5/10, 6/10, 7/10, 8/10, 9/10, 1] := by
  norm_num [sampleTs, tLoop]

theorem windowSamples_length (seg : Segment) :
    (windowSamples seg).length = 10 := by
  rw [windowSamples, List.length_map, sampleTs_eval]
  rfl

theorem length_flatMap_windowSamples (L : List Segment) :
    (L.flatMap windowSamples).length = 10 * L.length := by
  induction L with
  | nil => rfl
  | cons s t ih =>
    simp only [List.flatMap_cons, List.length_append, List.length_cons, ih,
      windowSamples_length]
    ring

theorem buildControl_cons (w0 w1 : Point) (u : List Point) (wp wl : Point)
    (hp : (w0 :: w1 :: u).get? u.length = some wp)
    (hl : (w1 :: u).get? u.length = some wl) :
    buildControl (w0 :: w1 :: u) = some
      ((w0.1 - (w1.1 - w0.1), w0.2 - (w1.2 - w0.2)) :: (w0 :: w1 :: u) ++
        [(wl.1 + (wl.1 - wp.1), wl.2 + (wl.2 - wp.2))]) := by
  simp only [buildControl, List.get?_cons_zero, List.get?_cons_succ,
    List.length_cons, Nat.add_sub_cancel, Option.some_bind, hp, hl]
  simp only [show u.length + 1 + 1 + 1 - 2 = u.length + 1 from by omega,
    List.get?_cons_succ, hp, Option.some_bind]
  rfl

theorem buildControl_shape (w0 w1 : Point) (rest : List Point) :
    ∃ sc fc, buildControl (w0 :: w1 :: rest) =
      some (sc :: (w0 :: w1 :: rest) ++ [fc]) := by
  have hp : ∃ wp, (w0 :: w1 :: rest).get? rest.length = some wp := by
    have h : rest.length < (w0 :: w1 :: rest).length := by simp; omega
    exact ⟨_, List.get?_eq_get h⟩
  have hl : ∃ wl, (w1 :: rest).get? rest.length = some wl := by
    have h : rest.length < (w1 :: rest).length := by simp
    exact ⟨_, List.get?_eq_get h⟩
  obtain ⟨wp, hp⟩ := hp
  obtain ⟨wl, hl⟩ := hl
  exact ⟨_, _, buildControl_cons w0 w1 rest wp wl hp hl⟩

/-! Claim theorems. -/

/-- C3: the `distance` function computes
`sqrt((p1.x - p0.x)^2 + 0^2) = |p1.x - p0.x|`, independently of both
y-coordinates, instead of the genuine Euclidean distance. -/
theorem distance_ignores_y (p0 p1 : Point) :
    distance p0 p1 = Real.sqrt ((p1.1 - p0.1) ^ 2 + 0 ^ 2) ∧
    distance p0 p1 = |p1.1 - p0.1| := by
  constructor
  · simp [distance, getMagnitude]
  · simp [distance, getMagnitude, Real.sqrt_sq_eq_abs]

/-- C2: under nonzero knot spacings (and nonzero pairwise sums), the segment
returned by `calcCoefficients` has `d = p1` and its cubic evaluated at
`t = 1` equals `p2` (i.e. `a + b + c + d = p2` componentwise): the segment
interpolates `p1` at `t = 0` and `p2` at `t = 1`. -/
theorem calcCoefficients_interpolates (alpha tension : ℝ) (p0 p1 p2 p3 : Point)
    (h01 : knotSpacing alpha p0 p1 ≠ 0)
    (h12 : knotSpacing alpha p1 p2 ≠ 0)
    (h23 : knotSpacing alpha p2 p3 ≠ 0)
    (hs1 : knotSpacing alpha p0 p1 + knotSpacing alpha p1 p2 ≠ 0)
    (hs2 : knotSpacing alpha p1 p2 + knotSpacing alpha p2 p3 ≠ 0) :
    (calcCoefficients alpha tension p0 p1 p2 p3).d = p1 ∧
    samplePoint (calcCoefficients alpha tension p0 p1 p2 p3) 1 = p2 := by
  obtain ⟨x1, y1⟩ := p1
  obtain ⟨x2, y2⟩ := p2
  constructor
  · rfl
  · simp only [calcCoefficients, samplePoint, Prod.mk.injEq]
    constructor <;> ring

/-- C2 witness: the hypotheses of `calcCoefficients_interpolates` hold at the
collinear input `(0,0), (1,0), (2,0), (3,0)` with `alpha = 3/4`,
`tension = 0`, and the conclusion follows by the theorem. -/
theorem calcCoefficients_interpolates_witness :
    (knotSpacing (3/4) ((0:ℝ), (0:ℝ)) ((1:ℝ), (0:ℝ)) ≠ 0 ∧
     knotSpacing (3/4) ((1:ℝ), (0:ℝ)) ((2:ℝ), (0:ℝ)) ≠ 0 ∧
     knotSpacing (3/4) ((2:ℝ), (0:ℝ)) ((3:ℝ), (0:ℝ)) ≠ 0 ∧
     knotSpacing (3/4) ((0:ℝ), (0:ℝ)) ((1:ℝ), (0:ℝ)) +
       knotSpacing (3/4) ((1:ℝ), (0:ℝ)) ((2:ℝ), (0:ℝ)) ≠ 0 ∧
     knotSpacing (3/4) ((1:ℝ), (0:ℝ)) ((2:ℝ), (0:ℝ)) +
       knotSpacing (3/4) ((2:ℝ), (0:ℝ)) ((3:ℝ), (0:ℝ)) ≠ 0) ∧
    ((calcCoefficients (3/4) 0 ((0:ℝ), (0:ℝ)) ((1:ℝ), (0:ℝ)) ((2:ℝ), (0:ℝ))
        ((3:ℝ), (0:ℝ))).d = ((1:ℝ), (0:ℝ)) ∧
     samplePoint (calcCoefficients (3/4) 0 ((0:ℝ), (0:ℝ)) ((1:ℝ), (0:ℝ))
        ((2:ℝ), (0:ℝ)) ((3:ℝ), (0:ℝ))) 1 = ((2:ℝ), (0:ℝ))) := by
  have h1 : knotSpacing (3/4) ((0:ℝ), (0:ℝ)) ((1:ℝ), (0:ℝ)) = 1 := by
    simp [knotSpacing, distance, getMagnitude]
  have h2 : knotSpacing (3/4) ((1:ℝ), (0:ℝ)) ((2:ℝ), (0:ℝ)) = 1 := by
    norm_num [knotSpacing, distance, getMagnitude]
  have h3 : knotSpacing (3/4) ((2:ℝ), (0:ℝ)) ((3:ℝ), (0:ℝ)) = 1 := by
    norm_num [knotSpacing, distance, getMagnitude]
  refine ⟨⟨by rw [h1]; norm_num, by rw [h2]; norm_num, by rw [h3]; norm_num,
    by rw [h1, h2]; norm_num, by rw [h2, h3]; norm_num⟩, ?_⟩
  exact calcCoefficients_interpolates (3/4) 0 _ _ _ _
    (by rw [h1]; norm_num) (by rw [h2]; norm_num) (by rw [h3]; norm_num)
    (by rw [h1, h2]; norm_num) (by rw [h2, h3]; norm_num)

/-- C9: `calcCoefficients` is deterministic: two calls with identical inputs
return identical segments.  In the embedding the function is pure by
construction (a total function with no state), so determinism is
congruence in its six arguments. -/
theorem calcCoefficients_deterministic (alpha tension alpha' tension' : ℝ)
    (p0 p1 p2 p3 p0' p1' p2' p3' : Point)
    (ha : alpha = alpha') (ht : tension = tension') (h0 : p0 = p0')
    (h1 : p1 = p1') (h2 : p2 = p2') (h3 : p3 = p3') :
    calcCoefficients alpha tension p0 p1 p2 p3 =
      calcCoefficients alpha' tension' p0' p1' p2' p3' := by
  subst ha ht h0 h1 h2 h3
  rfl

/-- C9 witness: two calls at the identical concrete input `alpha = 3/4`,
`tension = 0`, points `(0,0), (1,0), (2,0), (3,0)` return the same segment. -/
theorem calcCoefficients_deterministic_witness :
    calcCoefficients (3/4) 0 ((0:ℝ), (0:ℝ)) ((1:ℝ), (0:ℝ)) ((2:ℝ), (0:ℝ))
        ((3:ℝ), (0:ℝ)) =
      calcCoefficients (3/4) 0 ((0:ℝ), (0:ℝ)) ((1:ℝ), (0:ℝ)) ((2:ℝ), (0:ℝ))
        ((3:ℝ), (0:ℝ)) :=
  calcCoefficients_deterministic (3/4) 0 (3/4) 0 _ _ _ _ _ _ _ _
    rfl rfl rfl rfl rfl rfl

/-- C10: there are distinct (non-coincident) consecutive points — equal
x-coordinates, different y-coordinates — whose `distance` is 0, so the knot
spacing `distance^alpha` used as a divisor in `calcCoefficients` is 0 and
the unguarded divisions there divide by zero even though no two points
coincide. -/
theorem degenerate_spacing_reachable :
    ((0:ℝ), (0:ℝ)) ≠ ((0:ℝ), (1:ℝ)) ∧
    distance ((0:ℝ), (0:ℝ)) ((0:ℝ), (1:ℝ)) = 0 ∧
    knotSpacing (3/4) ((0:ℝ), (0:ℝ)) ((0:ℝ), (1:ℝ)) = 0 := by
  have hd : distance ((0:ℝ), (0:ℝ)) ((0:ℝ), (1:ℝ)) = 0 := by
    simp [distance, getMagnitude]
  refine ⟨by norm_num [Prod.ext_iff], hd, ?_⟩
  rw [knotSpacing, hd]
  exact Real.zero_rpow (by norm_num)

/-- C6 evaluation: at two coincident consecutive control points the knot
spacing `t01` is 0, yet `calcCoefficients` performs no check and returns a
segment normally (here with `d = p1`); no error is raised before the
division by the zero spacing. -/
theorem calcCoefficients_degenerate_returns :
    knotSpacing (3/4) ((0:ℝ), (0:ℝ)) ((0:ℝ), (0:ℝ)) = 0 ∧
    (calcCoefficients (3/4) 0 ((0:ℝ), (0:ℝ)) ((0:ℝ), (0:ℝ)) ((1:ℝ), (0:ℝ))
      ((2:ℝ), (0:ℝ))).d = ((0:ℝ), (0:ℝ)) := by
  constructor
  · have hd : distance ((0:ℝ), (0:ℝ)) ((0:ℝ), (0:ℝ)) = 0 := by
      simp [distance, getMagnitude]
    rw [knotSpacing, hd]
    exact Real.zero_rpow (by norm_num)
  · rfl

/-- C8: the sampling loop takes exactly the ten parameter values
`t = 0.1, 0.2, ..., 1.0` in increasing order — the value `1.0` is neither
skipped nor duplicated — and the points appended for a window are the
window's cubic evaluated at exactly those values, in that order. -/
theorem windowSamples_tvalues (seg : Segment) :
    sampleTs = [1/10, 2/10, 3/10, 4/10, 5/10, 6/10, 7/10, 8/10, 9/10, 1] ∧
    List.Chain' (fun s t => s < t) sampleTs ∧
    sampleTs.count 1 = 1 ∧
    windowSamples seg =
      [samplePoint seg (1/10), samplePoint seg (2/10), samplePoint seg (3/10),
       samplePoint seg (4/10), samplePoint seg (5/10), samplePoint seg (6/10),
       samplePoint seg (7/10), samplePoint seg (8/10), samplePoint seg (9/10),
       samplePoint seg 1] := by
  refine ⟨sampleTs_eval, ?_, ?_, ?_⟩
  · rw [sampleTs_eval]
    norm_num
  · rw [sampleTs_eval]
    simp only [List.count_cons, List.count_nil]
    norm_num
  · rw [windowSamples, sampleTs_eval]
    norm_num

/-- C5: for a path with at least two waypoints (indices 0, 1, N-2, N-1 all
readable), the control sequence built before sampling is the input sequence
with the phantom point `w0 - (w1 - w0)` prepended and the phantom point
`w[N-1] + (w[N-1] - w[N-2])` appended: it has exactly N+2 points and the N
original waypoints keep their order between the two phantom points. -/
theorem buildControl_spec (path : List Point) (w0 w1 wp wl : Point)
    (h0 : path.get? 0 = some w0) (h1 : path.get? 1 = some w1)
    (hp : path.get? (path.length - 2) = some wp)
    (hl : path.get? (path.length - 1) = some wl) :
    buildControl path = some
      ((w0.1 - (w1.1 - w0.1), w0.2 - (w1.2 - w0.2)) :: path ++
        [(wl.1 + (wl.1 - wp.1), wl.2 + (wl.2 - wp.2))]) ∧
    ((w0.1 - (w1.1 - w0.1), w0.2 - (w1.2 - w0.2)) :: path ++
        [(wl.1 + (wl.1 - wp.1), wl.2 + (wl.2 - wp.2))]).length =
      path.length + 2 := by
  cases path with
  | nil => simp at h0
  | cons a t =>
    cases t with
    | nil => simp at h1
    | cons b u =>
      obtain rfl : a = w0 := by simpa using h0
      obtain rfl : b = w1 := by simpa using h1
      simp only [List.length_cons, Nat.add_sub_cancel,
        List.get?_cons_succ] at hp hl
      simp only [show u.length + 1 + 1 - 2 = u.length from by omega] at hp
      exact ⟨buildControl_cons _ _ u wp wl hp hl, by simp⟩

/-- C5 witness: for the two-point input `[(0,0), (1,1)]` the four index
reads succeed and the control sequence is
`[(-1,-1), (0,0), (1,1), (2,2)]`, of length 2 + 2. -/
theorem buildControl_spec_witness :
    ([((0:ℝ), (0:ℝ)), ((1:ℝ), (1:ℝ))].get? 0 = some ((0:ℝ), (0:ℝ)) ∧
     [((0:ℝ), (0:ℝ)), ((1:ℝ), (1:ℝ))].get? 1 = some ((1:ℝ), (1:ℝ)) ∧
     [((0:ℝ), (0:ℝ)), ((1:ℝ), (1:ℝ))].get?
       ([((0:ℝ), (0:ℝ)), ((1:ℝ), (1:ℝ))].length - 2) = some ((0:ℝ), (0:ℝ)) ∧
     [((0:ℝ), (0:ℝ)), ((1:ℝ), (1:ℝ))].get?
       ([((0:ℝ), (0:ℝ)), ((1:ℝ), (1:ℝ))].length - 1) = some ((1:ℝ), (1:ℝ))) ∧
    buildControl [((0:ℝ), (0:ℝ)), ((1:ℝ), (1:ℝ))] =
      some [((-1:ℝ), (-1:ℝ)), ((0:ℝ), (0:ℝ)), ((1:ℝ), (1:ℝ)),
        ((2:ℝ), (2:ℝ))] := by
  refine ⟨⟨rfl, rfl, rfl, rfl⟩, ?_⟩
  have h := (buildControl_spec [((0:ℝ), (0:ℝ)), ((1:ℝ), (1:ℝ))]
    ((0:ℝ), (0:ℝ)) ((1:ℝ), (1:ℝ)) ((0:ℝ), (0:ℝ)) ((1:ℝ), (1:ℝ))
    rfl rfl rfl rfl).1
  rw [h]
  norm_num

/-- C1: for every input path of N waypoints with N >= 2, `generateSmoothPath`
succeeds and returns exactly `1 + 10*(N-1)` points: one initial point plus
ten samples for each of the N-1 sliding windows. -/
theorem smoothPath_output_length (w0 w1 : Point) (rest : List Point) :
    ∃ out, generateSmoothPath (w0 :: w1 :: rest) = some out ∧
      out.length = 1 + 10 * ((w0 :: w1 :: rest).length - 1) := by
  obtain ⟨sc, fc, hbc⟩ := buildControl_shape w0 w1 rest
  rw [generateSmoothPath, hbc, Option.map_some']
  refine ⟨_, rfl, ?_⟩
  have hwl : ((windows (sc :: (w0 :: w1 :: rest) ++ [fc])).map fun w =>
      calcCoefficients 0.75 0 w.1 w.2.1 w.2.2.1 w.2.2.2).length =
      rest.length + 1 := by
    rw [List.length_map, windows_length]
    simp
  have hne : ((windows (sc :: (w0 :: w1 :: rest) ++ [fc])).map fun w =>
      calcCoefficients 0.75 0 w.1 w.2.1 w.2.2.1 w.2.2.2) ≠ [] :=
    List.length_pos.mp (by rw [hwl]; omega)
  obtain ⟨s0, ss, hss⟩ := List.exists_cons_of_ne_nil hne
  rw [hss] at hwl
  simp only [List.length_cons] at hwl
  simp only [hss, List.length_cons, length_flatMap_windowSamples]
  omega

/-- C4: for every input path of N >= 2 waypoints, `generateSmoothPath`
succeeds and its first output point is exactly the first input waypoint
(the first window's `d` coefficient, emitted before any t-samples). -/
theorem smoothPath_first_point (w0 w1 : Point) (rest : List Point) :
    ∃ out, generateSmoothPath (w0 :: w1 :: rest) = some out ∧
      out.head? = some w0 := by
  obtain ⟨sc, fc, hbc⟩ := buildControl_shape w0 w1 rest
  rw [generateSmoothPath, hbc, Option.map_some']
  refine ⟨_, rfl, ?_⟩
  cases rest with
  | nil => simp [windows, calcCoefficients]
  | cons r rs => simp [windows, calcCoefficients]

/-- C7: for every input path with fewer than 2 waypoints, the pipeline fails
(the out-of-range `deque::at` access is modelled as `none`) before producing
any output; it does not return a smoothed path. -/
theorem smoothPath_insufficient_points (path : List Point)
    (h : path.length < 2) : generateSmoothPath path = none := by
  cases path with
  | nil => rfl
  | cons a t =>
    cases t with
    | nil => rfl
    | cons b u =>
      simp only [List.length_cons] at h
      omega

/-- C7 witness: the one-point input `[(0,0)]` has length < 2 and
`generateSmoothPath` returns `none` on it. -/
theorem smoothPath_insufficient_points_witness :
    [((0:ℝ), (0:ℝ))].length < 2 ∧
    generateSmoothPath [((0:ℝ), (0:ℝ))] = none :=
  ⟨by norm_num, smoothPath_insufficient_points _ (by norm_num)⟩

end SmoothPath
